import Mathlib

/-!
A verification development for the computational kernel of the
`wp-efficient-frontier` repository (one bundled JavaScript module).

Modelling conventions:
* JavaScript numbers are modelled as rationals (`ℚ`); `Math.sqrt` is the
  real square root, so computed volatilities live in `Option ℝ`.
* A `NaN` (or `undefined`) value produced by arithmetic on missing array
  entries is modelled as `none`.
* A thrown `TypeError` (indexing into an `undefined` matrix row) is
  modelled as `Except.error ()`.
* DOM event handlers are modelled as state transformers on the global
  `state` object; an `alert`-and-return path leaves the state unchanged.
-/

namespace EfficientFrontier

/-- A portfolio point of the Monte-Carlo cloud or of the frontier: the
objects with `ret` and `vol` fields consumed by
`estimateFrontierFromCloud`, `findMinVariance` and `findMaxSharpe`. -/
structure Point where
  ret : ℚ
  vol : ℚ
deriving DecidableEq

/-- Translation of `dot(a, b)`, i.e. `a.reduce((s, v, i) => s + v * b[i], 0)`. -/
def dot (a b : List ℚ) : ℚ :=
  ((List.range a.length).map (fun i => a.getD i 0 * b.getD i 0)).sum

/-- The accumulator computed by the double loop of `portfolioVol`:
`acc = Σ_i Σ_j weights[i] * cov[i][j] * weights[j]`, both indices ranging
over `weights.length`. -/
def portfolioVar (weights : List ℚ) (cov : List (List ℚ)) : ℚ :=
  ((List.range weights.length).map (fun i =>
    ((List.range weights.length).map (fun j =>
      weights.getD i 0 * (cov.getD i []).getD j 0 * weights.getD j 0)).sum)).sum

/-- Translation of `portfolioVol(weights, cov) = Math.sqrt(acc)`.
`Math.sqrt` of a negative number is `NaN`, modelled as `none`. -/
noncomputable def portfolioVol (weights : List ℚ) (cov : List (List ℚ)) : Option ℝ :=
  if 0 ≤ portfolioVar weights cov then
    some (Real.sqrt ((portfolioVar weights cov : ℚ) : ℝ))
  else none

/-- Translation of `normalizeWeights(w)`: every entry is divided by the
total `s = Σ w`.  When `s = 0` each JavaScript division `x / 0` produces a
non-finite value (`NaN` for the all-zero input), modelled as `none`. -/
def normalizeWeights (w : List ℚ) : List (Option ℚ) :=
  w.map (fun x => if w.sum = 0 then none else some (x / w.sum))

/-- JavaScript multiplication with possibly missing (`undefined` or `NaN`)
operands: any missing operand poisons the product. -/
def jsMul (a b : Option ℚ) : Option ℚ :=
  match a, b with
  | some x, some y => some (x * y)
  | _, _ => none

/-- One iteration `cov[i][j] = vols[i] * vols[j] * corr[i][j]` of the
`computeCov` loop.  When the row `corr[i]` is `undefined` the read
`corr[i][j]` throws a `TypeError` (`Except.error ()`); a missing entry of
an existing row is `undefined` and turns the product into `NaN`. -/
def covEntry (vols : List ℚ) (corr : List (List ℚ)) (i j : ℕ) :
    Except Unit (Option ℚ) :=
  match corr[i]? with
  | none => Except.error ()
  | some row => Except.ok (jsMul (jsMul vols[i]? vols[j]?) row[j]?)

/-- Sequential traversal corresponding to a JavaScript loop whose body may
throw: the first error aborts the whole computation. -/
def mapExcept {α : Type} (f : ℕ → Except Unit α) : List ℕ → Except Unit (List α)
  | [] => Except.ok []
  | i :: is =>
    match f i with
    | Except.error e => Except.error e
    | Except.ok a =>
      match mapExcept f is with
      | Except.error e => Except.error e
      | Except.ok as => Except.ok (a :: as)

/-- Translation of `computeCov(vols, corr)`: for `n = vols.length`, the
`n × n` matrix of `covEntry` values.  The source performs no dimension
check on `corr`. -/
def computeCov (vols : List ℚ) (corr : List (List ℚ)) :
    Except Unit (List (List (Option ℚ))) :=
  mapExcept
    (fun i => mapExcept (fun j => covEntry vols corr i j) (List.range vols.length))
    (List.range vols.length)

/-- Translation of `d3.min(points, d => d.vol)`; the default `0` is never
used on the non-empty clouds the claims are about. -/
def d3MinVol (points : List Point) : ℚ :=
  ((points.map Point.vol).min?).getD 0

/-- Translation of `d3.max(points, d => d.vol)`. -/
def d3MaxVol (points : List Point) : ℚ :=
  ((points.map Point.vol).max?).getD 0

/-- Bin width `step = (maxV - minV) / bins` with `bins = 120`. -/
def binStep (points : List Point) : ℚ :=
  (d3MaxVol points - d3MinVol points) / 120

/-- The bucket of loop iteration `b`: cloud members whose volatility lies
in the half-open interval from `v0 = minV + b * step` to `v1 = v0 + step`. -/
def binBucket (points : List Point) (b : ℕ) : List Point :=
  points.filter (fun d =>
    decide (d3MinVol points + (b : ℚ) * binStep points ≤ d.vol) &&
    decide (d.vol < d3MinVol points + (b : ℚ) * binStep points + binStep points))

/-- Body of one loop iteration of `estimateFrontierFromCloud`: an empty
bucket is skipped (`continue`); otherwise the first bucket member whose
return equals the bucket maximum (`d3.max` of the returns followed by
`find`) wins. -/
def binWinner (points : List Point) (b : ℕ) : Option Point :=
  if (binBucket points b).isEmpty then none
  else
    (binBucket points b).find? (fun d =>
      decide (d.ret = (((binBucket points b).map Point.ret).max?).getD 0))

/-- Translation of `estimateFrontierFromCloud(points)`: the loop runs for
`b = 0, …, 120` (121 iterations), collects the per-bin winners and sorts
them by ascending volatility. -/
def estimateFrontierFromCloud (points : List Point) : List Point :=
  ((List.range 121).filterMap (binWinner points)).mergeSort
    (fun a b => decide (a.vol ≤ b.vol))

/-- Translation of `findMinVariance(points)`: `reduce` starts from
`points[0]` and keeps the earlier point unless a strictly smaller
volatility appears; an empty list yields `undefined` (`none`). -/
def findMinVariance (points : List Point) : Option Point :=
  match points with
  | [] => none
  | p :: _ => some (points.foldl (fun best d => if d.vol < best.vol then d else best) p)

/-- Translation of `findMaxSharpe(points, rf)`: `reduce` starts from
`points[0]` and keeps the earlier point unless a strictly larger Sharpe
ratio `(ret - rf) / vol` appears. -/
def findMaxSharpe (points : List Point) (rf : ℚ) : Option Point :=
  match points with
  | [] => none
  | p :: _ =>
    some (points.foldl (fun best d =>
      if (d.ret - rf) / d.vol > (best.ret - rf) / best.vol then d else best) p)

/-- An object with `ret`, `vol` and `w` fields as pushed onto
`state.userWeightPoints`. -/
structure UserWeightPoint where
  ret : ℚ
  vol : Option ℝ
  w : List ℚ

/-- The fields of the global `state` object. -/
structure SessionState where
  assets : List String
  meanReturns : List ℚ
  vols : List ℚ
  corr : List (List ℚ)
  cov : List (List ℚ)
  rf : ℚ
  cloud : List Point
  userWeightPoints : List UserWeightPoint
  userRVPoints : List Point

/-- Translation of the `addWeightsBtn` click handler.  The numeric values
of the weight inputs arrive as `inputs` (percentages, each divided by 100
before the sum check).  Each alert-and-return path (no assets loaded, no
weight inputs, weight sum off by more than `1e-6` from 1) leaves the state
unchanged; otherwise the computed point is pushed onto
`state.userWeightPoints`. -/
noncomputable def addWeightsHandler (st : SessionState) (inputs : List ℚ) :
    SessionState :=
  if st.assets = [] then st
  else if inputs = [] then st
  else if |(inputs.map (fun x => x / 100)).sum - 1| > 1 / 1000000 then st
  else
    { st with userWeightPoints := st.userWeightPoints ++
        [{ ret := dot (inputs.map (fun x => x / 100)) st.meanReturns,
           vol := portfolioVol (inputs.map (fun x => x / 100)) st.cov,
           w := inputs.map (fun x => x / 100) }] }

/-! Section: Generic helper lemmas -/

theorem mapExcept_eq_ok_map {α : Type} (f : ℕ → Except Unit α) (g : ℕ → α) :
    ∀ l : List ℕ, (∀ i ∈ l, f i = Except.ok (g i)) →
      mapExcept f l = Except.ok (l.map g)
  | [], _ => rfl
  | i :: is, h => by
    have hi : f i = Except.ok (g i) := h i (List.mem_cons_self i is)
    have his : mapExcept f is = Except.ok (is.map g) :=
      mapExcept_eq_ok_map f g is (fun j hj => h j (List.mem_cons_of_mem i hj))
    simp [mapExcept, hi, his]

theorem mapExcept_ok_of_forall_ok {α : Type} (f : ℕ → Except Unit α) (p : α → Prop) :
    ∀ l : List ℕ, (∀ i ∈ l, ∃ a, f i = Except.ok a ∧ p a) →
      ∃ ys, mapExcept f l = Except.ok ys ∧ ys.length = l.length ∧ ∀ y ∈ ys, p y
  | [], _ => ⟨[], rfl, rfl, by simp⟩
  | i :: is, h => by
    obtain ⟨a, ha, hpa⟩ := h i (List.mem_cons_self i is)
    obtain ⟨ys, hys, hlen, hp⟩ :=
      mapExcept_ok_of_forall_ok f p is (fun j hj => h j (List.mem_cons_of_mem i hj))
    refine ⟨a :: ys, ?_, by simp [hlen], ?_⟩
    · simp [mapExcept, ha, hys]
    · intro y hy
      rcases List.mem_cons.mp hy with rfl | hy
      · exact hpa
      · exact hp y hy

theorem getElem?_eq_some_getD {α : Type} (l : List α) (i : ℕ) (d : α)
    (h : i < l.length) : l[i]? = some (l.getD i d) := by
  rw [List.getD_eq_getElem?_getD, List.getElem?_eq_getElem h]
  rfl

theorem getD_map_range {α : Type} (f : ℕ → α) (n i : ℕ) (d : α) (hi : i < n) :
    ((List.range n).map f).getD i d = f i := by
  rw [List.getD_eq_getElem?_getD, List.getElem?_map, List.getElem?_range hi,
    Option.map_some', Option.getD_some]

theorem covEntry_eq_ok (vols : List ℚ) (corr : List (List ℚ)) (i j : ℕ)
    (row : List ℚ) (hci : corr[i]? = some row) :
    covEntry vols corr i j = Except.ok (jsMul (jsMul vols[i]? vols[j]?) row[j]?) := by
  unfold covEntry
  rw [hci]

/-! Section: Claim C3: all-zero input to normalizeWeights -/

/-- Claim C3, counterexample.  On the all-zero weight vector
`normalizeWeights` does not signal any error: it returns the vector whose
entries are all `NaN` (`none`), i.e. the NaN propagation the claim denies. -/
theorem normalizeWeights_allzero_counterexample :
    normalizeWeights [(0 : ℚ), 0] = [none, none] := by
  norm_num [normalizeWeights]

/-- Claim C3, amended.  For an all-zero input weight vector
`normalizeWeights` returns a vector each of whose entries is `NaN`
(modelled as `none`): there is no `InvalidWeights` guard and the NaN
propagates silently. -/
theorem normalizeWeights_allzero_spec (w : List ℚ) (h : ∀ x ∈ w, x = 0) :
    ∀ y ∈ normalizeWeights w, y = none := by
  intro y hy
  rw [normalizeWeights] at hy
  rcases List.mem_map.mp hy with ⟨x, _, hxy⟩
  rw [if_pos (List.sum_eq_zero h)] at hxy
  exact hxy.symm

/-- Witness for the amended claim C3 at the concrete input `[0, 0]`. -/
theorem normalizeWeights_allzero_spec_witness :
    (∀ x ∈ [(0 : ℚ), 0], x = 0) ∧ ∀ y ∈ normalizeWeights [(0 : ℚ), 0], y = none :=
  ⟨by simp, normalizeWeights_allzero_spec [0, 0] (by simp)⟩

/-! Section: Claim C9: normalizeWeights on a nonzero-sum input -/

/-- Claim C9.  For every input with nonzero sum, `normalizeWeights`
divides every entry by the sum and the resulting components add up to
exactly 1 (hence in particular within the 1e-9 tolerance). -/
theorem normalizeWeights_sum_one (w : List ℚ) (h : w.sum ≠ 0) :
    normalizeWeights w = w.map (fun x => some (x / w.sum)) ∧
      (w.map (fun x => x / w.sum)).sum = 1 := by
  constructor
  · rw [normalizeWeights]
    exact List.map_congr_left (fun x _ => if_neg h)
  · have h1 : ∀ l : List ℚ, (l.map (fun x => x / w.sum)).sum = l.sum / w.sum := by
      intro l
      induction l with
      | nil => simp
      | cons a t ih => simp [ih, add_div]
    rw [h1, div_self h]

/-- Witness for claim C9 at the concrete input `[1, 3]`. -/
theorem normalizeWeights_sum_one_witness :
    [(1 : ℚ), 3].sum ≠ 0 ∧
      (normalizeWeights [(1 : ℚ), 3] =
          [(1 : ℚ), 3].map (fun x => some (x / [(1 : ℚ), 3].sum)) ∧
        ([(1 : ℚ), 3].map (fun x => x / [(1 : ℚ), 3].sum)).sum = 1) :=
  ⟨by norm_num, normalizeWeights_sum_one [1, 3] (by norm_num)⟩

/-! Section: Claim C4: nonnegativity of the portfolio volatility -/

/-- Claim C4, counterexample.  The weight vector `[1]` sums to 1, yet for
the (non-positive-semi-definite) covariance matrix `[[-1]]` the quadratic
form is `-1` and `Math.sqrt(-1)` is `NaN`: the volatility is not a
nonnegative number. -/
theorem portfolioVol_counterexample :
    [(1 : ℚ)].sum = 1 ∧ portfolioVol [(1 : ℚ)] [[(-1 : ℚ)]] = none := by
  constructor
  · norm_num
  · rw [portfolioVol,
      if_neg (by norm_num [portfolioVar, List.range_succ] :
        ¬ (0 : ℚ) ≤ portfolioVar [(1 : ℚ)] [[(-1 : ℚ)]])]

/-- Claim C4, amended.  For every weight vector summing to 1 and every
covariance matrix whose quadratic form at those weights is nonnegative
(in particular every positive-semi-definite one), the portfolio
volatility is a defined, nonnegative number. -/
theorem portfolioVol_nonneg (w : List ℚ) (cov : List (List ℚ))
    (hsum : w.sum = 1) (hvar : 0 ≤ portfolioVar w cov) :
    ∃ v, portfolioVol w cov = some v ∧ 0 ≤ v :=
  ⟨Real.sqrt ((portfolioVar w cov : ℚ) : ℝ),
    by rw [portfolioVol, if_pos hvar], Real.sqrt_nonneg _⟩

/-- Witness for the amended claim C4 at weights `[1]`, covariance `[[1]]`. -/
theorem portfolioVol_nonneg_witness :
    ∃ v, portfolioVol [(1 : ℚ)] [[(1 : ℚ)]] = some v ∧ 0 ≤ v :=
  portfolioVol_nonneg [1] [[1]] (by norm_num)
    (by norm_num [portfolioVar, List.range_succ])

/-! Section: Claim C1: covariance construction on well-formed inputs -/

/-- Claim C1.  For every volatility vector of length `n` and every `n × n`
correlation matrix, `computeCov` succeeds and returns an `n × n` matrix
whose entry at `(i, j)` is `vol[i] * vol[j] * corr[i][j]`. -/
theorem computeCov_spec (vols : List ℚ) (corr : List (List ℚ))
    (hlen : corr.length = vols.length)
    (hrows : ∀ row ∈ corr, row.length = vols.length) :
    ∃ M, computeCov vols corr = Except.ok M ∧
      M.length = vols.length ∧ (∀ row ∈ M, row.length = vols.length) ∧
      ∀ i j, i < vols.length → j < vols.length →
        (M.getD i []).getD j none =
          some (vols.getD i 0 * vols.getD j 0 * (corr.getD i []).getD j 0) := by
  refine ⟨(List.range vols.length).map (fun i => (List.range vols.length).map
      (fun j => some (vols.getD i 0 * vols.getD j 0 * (corr.getD i []).getD j 0))),
    ?_, by simp, ?_, ?_⟩
  · apply mapExcept_eq_ok_map
    intro i hi
    apply mapExcept_eq_ok_map
    intro j hj
    have hi' : i < vols.length := List.mem_range.mp hi
    have hj' : j < vols.length := List.mem_range.mp hj
    have hci : corr[i]? = some (corr.getD i []) :=
      getElem?_eq_some_getD corr i [] (hlen ▸ hi')
    have hrowlen : (corr.getD i []).length = vols.length :=
      hrows _ (List.getElem?_mem hci)
    rw [covEntry_eq_ok vols corr i j _ hci,
      getElem?_eq_some_getD vols i 0 hi',
      getElem?_eq_some_getD vols j 0 hj',
      getElem?_eq_some_getD (corr.getD i []) j 0 (hrowlen ▸ hj')]
    rfl
  · intro row hrow
    rcases List.mem_map.mp hrow with ⟨i, -, rfl⟩
    simp
  · intro i j hi hj
    rw [getD_map_range _ vols.length i [] hi, getD_map_range _ vols.length j none hj]

/-- Witness for claim C1 at volatilities `[2, 3]` and the symmetric
correlation matrix with off-diagonal entry `1/2`. -/
theorem computeCov_spec_witness :
    ∃ M, computeCov [(2 : ℚ), 3] [[1, 1/2], [1/2, 1]] = Except.ok M ∧
      M.length = [(2 : ℚ), 3].length ∧
      (∀ row ∈ M, row.length = [(2 : ℚ), 3].length) ∧
      ∀ i j, i < [(2 : ℚ), 3].length → j < [(2 : ℚ), 3].length →
        (M.getD i []).getD j none =
          some ([(2 : ℚ), 3].getD i 0 * [(2 : ℚ), 3].getD j 0 *
            (([[(1 : ℚ), 1/2], [1/2, 1]]).getD i []).getD j 0) :=
  computeCov_spec [2, 3] [[1, 1/2], [1/2, 1]] (by simp)
    (by simp [List.forall_mem_cons])

/-! Section: Claim C2: computeCov on mismatched dimensions -/

/-- Claim C2, counterexample.  The volatility vector `[1]` and the `2 × 2`
identity correlation matrix have mismatched dimensions, yet `computeCov`
raises no error at all (in particular no `ConfigurationError`): it happily
returns a `1 × 1` matrix. -/
theorem computeCov_mismatch_counterexample :
    [(1 : ℚ)].length ≠ [[(1 : ℚ), 0], [0, 1]].length ∧
      ∃ M, computeCov [(1 : ℚ)] [[(1 : ℚ), 0], [0, 1]] = Except.ok M := by
  exact ⟨by simp, ⟨_, rfl⟩⟩

/-- Claim C2, amended.  `computeCov` performs no dimension check: whenever
the correlation matrix has at least as many rows as the volatility vector
has entries — including every mismatch where it is strictly larger — the
function returns an `n × n` matrix (`n` the number of volatilities)
instead of failing; no `ConfigurationError` is ever signalled (a row
shorter than `n` merely yields `NaN` entries, and only a missing row
aborts with a generic `TypeError`). -/
theorem computeCov_no_dimension_check (vols : List ℚ) (corr : List (List ℚ))
    (h : vols.length ≤ corr.length) :
    ∃ M, computeCov vols corr = Except.ok M ∧ M.length = vols.length ∧
      ∀ row ∈ M, row.length = vols.length := by
  have inner : ∀ i ∈ List.range vols.length,
      ∃ ys, mapExcept (fun j => covEntry vols corr i j) (List.range vols.length) =
          Except.ok ys ∧ ys.length = vols.length := by
    intro i hi
    have hi' : i < corr.length := lt_of_lt_of_le (List.mem_range.mp hi) h
    obtain ⟨ys, hys, hyslen, -⟩ :=
      mapExcept_ok_of_forall_ok (fun j => covEntry vols corr i j) (fun _ => True)
        (List.range vols.length)
        (fun j _ => ⟨jsMul (jsMul vols[i]? vols[j]?) ((corr.getD i [])[j]?),
          covEntry_eq_ok vols corr i j _ (getElem?_eq_some_getD corr i [] hi'),
          trivial⟩)
    exact ⟨ys, hys, by simpa using hyslen⟩
  obtain ⟨M, hM, hMlen, hMrows⟩ :=
    mapExcept_ok_of_forall_ok
      (fun i => mapExcept (fun j => covEntry vols corr i j) (List.range vols.length))
      (fun row : List (Option ℚ) => row.length = vols.length)
      (List.range vols.length)
      (fun i hi => by
        obtain ⟨ys, hys, hyslen⟩ := inner i hi
        exact ⟨ys, hys, hyslen⟩)
  exact ⟨M, hM, by simpa using hMlen, hMrows⟩

/-- Witness for the amended claim C2 at the mismatched input of the
counterexample: one volatility, a `2 × 2` correlation matrix. -/
theorem computeCov_no_dimension_check_witness :
    ∃ M, computeCov [(1 : ℚ)] [[(1 : ℚ), 0], [0, 1]] = Except.ok M ∧
      M.length = [(1 : ℚ)].length ∧
      ∀ row ∈ M, row.length = [(1 : ℚ)].length :=
  computeCov_no_dimension_check [1] [[1, 0], [0, 1]] (by simp)

/-! Section: Linear scans: first minimizer of a key along a fold -/

theorem foldl_pick_first (key : Point → ℚ) (l : List Point) :
    ∀ acc : Point,
      ∃ m l1 l2,
        l.foldl (fun best d => if key d < key best then d else best) acc = m ∧
        acc :: l = l1 ++ m :: l2 ∧
        (∀ q ∈ l1, key m < key q) ∧
        (∀ q ∈ acc :: l, key m ≤ key q) := by
  induction l with
  | nil =>
    intro acc
    exact ⟨acc, [], [], rfl, rfl, by simp, by simp⟩
  | cons d t ih =>
    intro acc
    by_cases hd : key d < key acc
    · obtain ⟨m, l1, l2, hfold, hdec, hlt, hle⟩ := ih d
      refine ⟨m, acc :: l1, l2, ?_, ?_, ?_, ?_⟩
      · rw [List.foldl_cons, if_pos hd]
        exact hfold
      · rw [List.cons_append, ← hdec]
      · intro q hq
        rcases List.mem_cons.mp hq with rfl | hq
        · exact lt_of_le_of_lt (hle d (List.mem_cons_self d t)) hd
        · exact hlt q hq
      · intro q hq
        rcases List.mem_cons.mp hq with rfl | hq
        · exact le_of_lt (lt_of_le_of_lt (hle d (List.mem_cons_self d t)) hd)
        · exact hle q hq
    · obtain ⟨m, l1, l2, hfold, hdec, hlt, hle⟩ := ih acc
      have hacc_d : key acc ≤ key d := le_of_not_lt hd
      cases l1 with
      | nil =>
        simp only [List.nil_append] at hdec
        injection hdec with h1 h2
        subst h1
        subst h2
        refine ⟨acc, [], d :: t, ?_, rfl, by simp, ?_⟩
        · rw [List.foldl_cons, if_neg hd]
          exact hfold
        · intro q hq
          rcases List.mem_cons.mp hq with rfl | hq
          · exact le_refl _
          · rcases List.mem_cons.mp hq with rfl | hq
            · exact hacc_d
            · exact hle q (List.mem_cons_of_mem acc hq)
      | cons a l1' =>
        simp only [List.cons_append] at hdec
        injection hdec with h1 h2
        subst a
        refine ⟨m, acc :: d :: l1', l2, ?_, ?_, ?_, ?_⟩
        · rw [List.foldl_cons, if_neg hd]
          exact hfold
        · rw [List.cons_append, List.cons_append, ← h2]
        · intro q hq
          rcases List.mem_cons.mp hq with heq | hq
          · rw [heq]
            exact hlt acc (List.mem_cons_self acc l1')
          · rcases List.mem_cons.mp hq with heq | hq
            · rw [heq]
              exact lt_of_lt_of_le (hlt acc (List.mem_cons_self acc l1')) hacc_d
            · exact hlt q (List.mem_cons_of_mem acc hq)
        · intro q hq
          rcases List.mem_cons.mp hq with heq | hq
          · rw [heq]
            exact hle acc (List.mem_cons_self acc t)
          · rcases List.mem_cons.mp hq with heq | hq
            · rw [heq]
              exact le_trans (hle acc (List.mem_cons_self acc t)) hacc_d
            · exact hle q (List.mem_cons_of_mem acc hq)

/-! Section: Claim C6: the minimum-variance point -/

/-- Claim C6.  On every non-empty frontier list, `findMinVariance` returns
a member of the list whose volatility is less than or equal to that of
every list element, and it is the first-encountered such point: every
point before it in the list has strictly larger volatility. -/
theorem findMinVariance_spec (points : List Point) (h : points ≠ []) :
    ∃ m l1 l2, findMinVariance points = some m ∧ points = l1 ++ m :: l2 ∧
      (∀ q ∈ l1, m.vol < q.vol) ∧ (∀ q ∈ points, m.vol ≤ q.vol) := by
  cases points with
  | nil => exact absurd rfl h
  | cons p ps =>
    obtain ⟨m, l1, l2, hfold, hdec, hlt, hle⟩ := foldl_pick_first Point.vol ps p
    refine ⟨m, l1, l2, ?_, hdec, hlt, hle⟩
    show some ((p :: ps).foldl (fun best d => if d.vol < best.vol then d else best) p) =
      some m
    simp only [List.foldl_cons, ite_self]
    exact congrArg some hfold

/-- Witness for claim C6 on a concrete two-point frontier. -/
theorem findMinVariance_spec_witness :
    ∃ m l1 l2,
      findMinVariance [⟨1, 2⟩, ⟨3, 1⟩] = some m ∧
      ([⟨1, 2⟩, ⟨3, 1⟩] : List Point) = l1 ++ m :: l2 ∧
      (∀ q ∈ l1, m.vol < q.vol) ∧
      (∀ q ∈ ([⟨1, 2⟩, ⟨3, 1⟩] : List Point), m.vol ≤ q.vol) :=
  findMinVariance_spec [⟨1, 2⟩, ⟨3, 1⟩] (List.cons_ne_nil _ _)

/-! Section: Claim C7: the maximum-Sharpe point -/

/-- Claim C7.  On every non-empty cloud, `findMaxSharpe` returns a member
of the cloud whose Sharpe ratio `(ret - rf) / vol` is greater than or
equal to that of every cloud point, and it is the first-encountered such
point: every point before it in the cloud has strictly smaller Sharpe
ratio. -/
theorem findMaxSharpe_spec (points : List Point) (rf : ℚ) (h : points ≠ []) :
    ∃ m l1 l2, findMaxSharpe points rf = some m ∧ points = l1 ++ m :: l2 ∧
      (∀ q ∈ l1, (q.ret - rf) / q.vol < (m.ret - rf) / m.vol) ∧
      (∀ q ∈ points, (q.ret - rf) / q.vol ≤ (m.ret - rf) / m.vol) := by
  cases points with
  | nil => exact absurd rfl h
  | cons p ps =>
    obtain ⟨m, l1, l2, hfold, hdec, hlt, hle⟩ :=
      foldl_pick_first (fun q : Point => -((q.ret - rf) / q.vol)) ps p
    have hfun : (fun (best d : Point) =>
        if (d.ret - rf) / d.vol > (best.ret - rf) / best.vol then d else best) =
        (fun best d =>
          if (fun q : Point => -((q.ret - rf) / q.vol)) d <
              (fun q : Point => -((q.ret - rf) / q.vol)) best then d else best) := by
      funext best d
      simp only [gt_iff_lt, neg_lt_neg_iff]
    refine ⟨m, l1, l2, ?_, hdec, ?_, ?_⟩
    · show some ((p :: ps).foldl (fun best d =>
        if (d.ret - rf) / d.vol > (best.ret - rf) / best.vol then d else best) p) =
        some m
      rw [hfun]
      simp only [List.foldl_cons, ite_self]
      exact congrArg some hfold
    · intro q hq
      exact neg_lt_neg_iff.mp (hlt q hq)
    · intro q hq
      exact neg_le_neg_iff.mp (hle q hq)

/-- Witness for claim C7 on a concrete two-point cloud with `rf = 0`. -/
theorem findMaxSharpe_spec_witness :
    ∃ m l1 l2,
      findMaxSharpe [⟨1, 2⟩, ⟨3, 1⟩] 0 = some m ∧
      ([⟨1, 2⟩, ⟨3, 1⟩] : List Point) = l1 ++ m :: l2 ∧
      (∀ q ∈ l1, (q.ret - 0) / q.vol < (m.ret - 0) / m.vol) ∧
      (∀ q ∈ ([⟨1, 2⟩, ⟨3, 1⟩] : List Point), (q.ret - 0) / q.vol ≤ (m.ret - 0) / m.vol) :=
  findMaxSharpe_spec [⟨1, 2⟩, ⟨3, 1⟩] 0 (List.cons_ne_nil _ _)

/-! Section: Claim C5: the estimated frontier is a sorted subset of the cloud -/

theorem binWinner_mem (points : List Point) (b : ℕ) (q : Point)
    (h : binWinner points b = some q) : q ∈ points := by
  rw [binWinner] at h
  by_cases he : (binBucket points b).isEmpty
  · rw [if_pos he] at h
    exact absurd h (by simp)
  · rw [if_neg he] at h
    have hq : q ∈ binBucket points b := List.mem_of_find?_eq_some h
    rw [binBucket] at hq
    exact (List.mem_filter.mp hq).1

/-- Claim C5.  For every non-empty cloud, every point of the estimated
frontier is a member of the cloud, and the frontier list is sorted by
non-decreasing volatility. -/
theorem estimateFrontier_spec (points : List Point) (h : points ≠ []) :
    (∀ q ∈ estimateFrontierFromCloud points, q ∈ points) ∧
      List.Pairwise (fun a b : Point => a.vol ≤ b.vol)
        (estimateFrontierFromCloud points) := by
  constructor
  · intro q hq
    rw [estimateFrontierFromCloud] at hq
    have hq' : q ∈ (List.range 121).filterMap (binWinner points) :=
      (List.mergeSort_perm _ _).mem_iff.mp hq
    rcases List.mem_filterMap.mp hq' with ⟨b, -, hb⟩
    exact binWinner_mem points b q hb
  · have htrans : ∀ a b c : Point, decide (a.vol ≤ b.vol) = true →
        decide (b.vol ≤ c.vol) = true → decide (a.vol ≤ c.vol) = true := by
      intro a b c h1 h2
      simp only [decide_eq_true_eq] at h1 h2 ⊢
      exact le_trans h1 h2
    have htotal : ∀ a b : Point,
        (decide (a.vol ≤ b.vol) || decide (b.vol ≤ a.vol)) = true := by
      intro a b
      simp only [Bool.or_eq_true, decide_eq_true_eq]
      exact le_total a.vol b.vol
    have hs := @List.sorted_mergeSort Point (fun a b => decide (a.vol ≤ b.vol))
      htrans htotal ((List.range 121).filterMap (binWinner points))
    rw [estimateFrontierFromCloud]
    exact hs.imp (fun hab => of_decide_eq_true hab)

/-- Witness for claim C5 on a concrete one-point cloud. -/
theorem estimateFrontier_spec_witness :
    (∀ q ∈ estimateFrontierFromCloud [⟨1, 1⟩], q ∈ ([⟨1, 1⟩] : List Point)) ∧
      List.Pairwise (fun a b : Point => a.vol ≤ b.vol)
        (estimateFrontierFromCloud [⟨1, 1⟩]) :=
  estimateFrontier_spec [⟨1, 1⟩] (List.cons_ne_nil _ _)

/-! Section: Claim C10: a constant-volatility cloud yields an empty frontier -/

theorem min?_cons_eq_foldl {α : Type} [Min α] (a : α) (l : List α) :
    (a :: l).min? = some (l.foldl min a) := rfl

theorem max?_cons_eq_foldl {α : Type} [Max α] (a : α) (l : List α) :
    (a :: l).max? = some (l.foldl max a) := rfl

theorem foldl_min_const (v : ℚ) : ∀ l : List ℚ, (∀ x ∈ l, x = v) → l.foldl min v = v
  | [], _ => rfl
  | a :: t, h => by
    have ha : a = v := h a (List.mem_cons_self a t)
    rw [List.foldl_cons, ha, min_self]
    exact foldl_min_const v t (fun x hx => h x (List.mem_cons_of_mem a hx))

theorem foldl_max_const (v : ℚ) : ∀ l : List ℚ, (∀ x ∈ l, x = v) → l.foldl max v = v
  | [], _ => rfl
  | a :: t, h => by
    have ha : a = v := h a (List.mem_cons_self a t)
    rw [List.foldl_cons, ha, max_self]
    exact foldl_max_const v t (fun x hx => h x (List.mem_cons_of_mem a hx))

theorem d3MinVol_const (points : List Point) (v : ℚ) (h : points ≠ [])
    (hv : ∀ p ∈ points, p.vol = v) : d3MinVol points = v := by
  cases points with
  | nil => exact absurd rfl h
  | cons p ps =>
    have hp : p.vol = v := hv p (List.mem_cons_self p ps)
    have hall : ∀ x ∈ ps.map Point.vol, x = v := by
      intro x hx
      rcases List.mem_map.mp hx with ⟨q, hq, rfl⟩
      exact hv q (List.mem_cons_of_mem p hq)
    rw [d3MinVol]
    show ((p.vol :: ps.map Point.vol).min?).getD 0 = v
    rw [min?_cons_eq_foldl, Option.getD_some, hp]
    exact foldl_min_const v _ hall

theorem d3MaxVol_const (points : List Point) (v : ℚ) (h : points ≠ [])
    (hv : ∀ p ∈ points, p.vol = v) : d3MaxVol points = v := by
  cases points with
  | nil => exact absurd rfl h
  | cons p ps =>
    have hp : p.vol = v := hv p (List.mem_cons_self p ps)
    have hall : ∀ x ∈ ps.map Point.vol, x = v := by
      intro x hx
      rcases List.mem_map.mp hx with ⟨q, hq, rfl⟩
      exact hv q (List.mem_cons_of_mem p hq)
    rw [d3MaxVol]
    show ((p.vol :: ps.map Point.vol).max?).getD 0 = v
    rw [max?_cons_eq_foldl, Option.getD_some, hp]
    exact foldl_max_const v _ hall

/-- Claim C10.  For every non-empty cloud in which all points have the
same volatility, the bin width is zero, every half-open bucket is empty
and the estimated frontier is the empty list: a non-empty cloud does not
guarantee a non-empty frontier. -/
theorem estimateFrontier_empty_of_const_vol (points : List Point) (v : ℚ)
    (h : points ≠ []) (hv : ∀ p ∈ points, p.vol = v) :
    estimateFrontierFromCloud points = [] := by
  have hmin : d3MinVol points = v := d3MinVol_const points v h hv
  have hmax : d3MaxVol points = v := d3MaxVol_const points v h hv
  have hstep : binStep points = 0 := by
    rw [binStep, hmin, hmax]
    simp
  have hbucket : ∀ b : ℕ, binBucket points b = [] := by
    intro b
    rw [binBucket]
    apply List.filter_eq_nil_iff.mpr
    intro d hd
    have hdv : d.vol = v := hv d hd
    simp [hmin, hstep, hdv]
  have hnone : ∀ b : ℕ, binWinner points b = none := by
    intro b
    rw [binWinner, hbucket b]
    rfl
  rw [estimateFrontierFromCloud,
    List.filterMap_eq_nil_iff.mpr (fun b _ => hnone b), List.mergeSort_nil]

/-- Witness for claim C10 on a concrete two-point cloud of constant
volatility 5. -/
theorem estimateFrontier_empty_of_const_vol_witness :
    estimateFrontierFromCloud [⟨1, 5⟩, ⟨2, 5⟩] = [] :=
  estimateFrontier_empty_of_const_vol [⟨1, 5⟩, ⟨2, 5⟩] 5 (List.cons_ne_nil _ _)
    (by simp [List.forall_mem_cons])

/-! Section: Claim C8: the weight-based user point entry -/

/-- Claim C8.  In a session with loaded assets and non-empty weight
inputs: if the entered percentage weights sum to something off by more
than the tolerance (`1e-6` after dividing by 100), the handler rejects the
action and the whole session state — in particular both tracked user point
collections — is unchanged; if the sum is within tolerance, the handler
appends exactly one point, with return computed by `dot` and volatility by
`portfolioVol`, to `state.userWeightPoints`, leaving every other field
unchanged. -/
theorem addWeights_spec (st : SessionState) (inputs : List ℚ)
    (h1 : st.assets ≠ []) (h2 : inputs ≠ []) :
    (1 / 1000000 < |(inputs.map (fun x => x / 100)).sum - 1| →
        addWeightsHandler st inputs = st) ∧
    (|(inputs.map (fun x => x / 100)).sum - 1| ≤ 1 / 1000000 →
        addWeightsHandler st inputs =
          { st with userWeightPoints := st.userWeightPoints ++
              [{ ret := dot (inputs.map (fun x => x / 100)) st.meanReturns,
                 vol := portfolioVol (inputs.map (fun x => x / 100)) st.cov,
                 w := inputs.map (fun x => x / 100) }] }) := by
  constructor
  · intro hgt
    rw [addWeightsHandler, if_neg h1, if_neg h2, if_pos hgt]
  · intro hle
    rw [addWeightsHandler, if_neg h1, if_neg h2, if_neg (not_lt.mpr hle)]

/-- Witness for claim C8 in a one-asset session with entered weights
`[60, 40]` (both implications of the conclusion are instantiated; the
within-tolerance one is the applicable branch since the weights sum to
exactly 100). -/
theorem addWeights_spec_witness :
    (1 / 1000000 < |(([60, 40] : List ℚ).map (fun x => x / 100)).sum - 1| →
        addWeightsHandler ⟨["A"], [1/10], [1/5], [[1]], [[1/25]], 0, [], [], []⟩
            [60, 40] =
          ⟨["A"], [1/10], [1/5], [[1]], [[1/25]], 0, [], [], []⟩) ∧
    (|(([60, 40] : List ℚ).map (fun x => x / 100)).sum - 1| ≤ 1 / 1000000 →
        addWeightsHandler ⟨["A"], [1/10], [1/5], [[1]], [[1/25]], 0, [], [], []⟩
            [60, 40] =
          { (⟨["A"], [1/10], [1/5], [[1]], [[1/25]], 0, [], [], []⟩ : SessionState) with
              userWeightPoints := ([] : List UserWeightPoint) ++
                [{ ret := dot (([60, 40] : List ℚ).map (fun x => x / 100)) [1/10],
                   vol := portfolioVol (([60, 40] : List ℚ).map (fun x => x / 100)) [[1/25]],
                   w := ([60, 40] : List ℚ).map (fun x => x / 100) }] }) :=
  addWeights_spec ⟨["A"], [1/10], [1/5], [[1]], [[1/25]], 0, [], [], []⟩ [60, 40]
    (List.cons_ne_nil _ _) (List.cons_ne_nil _ _)

end EfficientFrontier
